import Mathlib

/-!
Really-Simple-Shell: a shallow embedding of `main.cpp`.

The shell reads a line, chops its last character (`make_string`), splits it on
spaces with `strtok`, stores the tokens in the fixed array `args[MAXARGS+1]`,
and hands command and arguments to `execute(command, args)`, which serves the
built-ins itself and sends everything else to `run` (fork, a sequence of
`execv` attempts in the child, `wait` in the parent).

Conventions of the embedding.

* A C string is represented by its content, the list of characters in front of
  the NUL terminator (`CStr`).  `strlen` is `List.length`.
* The hidden static pointer of `strtok` is an explicit argument and result
  (`save`): the text that is still to be scanned.
* The operating system is a parameter (`World`): what `fork` returns in the
  process being followed, which paths `execv` accepts, what `getcwd` yields.
* Effects are recorded in a trace of `Event`s; a function ends in an `Outcome`
  (it returns, the process exits, the image is replaced, or undefined behaviour
  is reached).
* `malloc` is taken to succeed, so the `no memory` exits of `c_concat` and
  `make_string` are not part of the model.
-/

namespace RSS

/-- Content of a NUL-terminated C string. -/
abbrev CStr := List Char

/-- Maximum length of each argument (`#define ARGLEN 100`). -/
def ARGLEN : Nat := 100

/-- Maximum number of arguments (`#define MAXARGS 20`). -/
def MAXARGS : Nat := 20

/-- Maximum length of total user input (`#define INPUTLEN 2048`). -/
def INPUTLEN : Nat := 2048

/-- One `char*` slot of the array `args`. -/
inductive Arg where
  /-- never written: indeterminate -/
  | junk
  /-- the NULL pointer -/
  | null
  /-- pointer to a string -/
  | str (s : CStr)
  deriving DecidableEq, Repr

/-- Ways in which the C program leaves defined behaviour, and the one way in
which the model can stop short (`fuel`, shown never to happen). -/
inductive Fault where
  /-- store to `args[i]` with `i` outside `0..MAXARGS` -/
  | oob (i : Nat)
  /-- `buf[strlen(buf)-1]` with `strlen(buf) = 0` -/
  | underflow
  /-- the iteration bound of a modelled loop was used up -/
  | fuel
  deriving DecidableEq, Repr

/-- How a call ends. -/
inductive Outcome where
  /-- the function returns `v` to its caller -/
  | ret (v : Int)
  /-- the process ends through `exit(code)` -/
  | exited (code : Int)
  /-- `execv(path, args)` succeeded: the process image is replaced -/
  | execed (path : CStr) (argv : List CStr)
  /-- undefined behaviour -/
  | fault (f : Fault)
  deriving DecidableEq, Repr

/-- Observable effects. -/
inductive Event where
  /-- text written with `printf` -/
  | stdout (text : CStr)
  /-- a call of `fork()` that returned `rv` in the process being followed -/
  | fork (rv : Int)
  /-- a call of `wait(&status)` -/
  | wait
  deriving DecidableEq, Repr

/-- Effects of a call together with the way it ended. -/
structure Run where
  trace : List Event
  out : Outcome
  deriving DecidableEq, Repr

/-- The operating system as seen by one process. -/
structure World where
  /-- value of `getpid()` -/
  pid : Nat
  /-- value that `fork()` returns in the process being followed:
  `0` in the child, positive in the parent, negative when no child was created -/
  fork_rv : Int
  /-- whether `execv(path, _)` succeeds, i.e. `path` is an executable file -/
  execv_ok : CStr → Bool
  /-- result of `getcwd(cwd, 1024)`: `none` when it returns NULL -/
  cwd : Option CStr

/-- The `Shell` object: the untokenized `PATH` (`getenv` may return NULL). -/
structure Shell where
  fullPath : Option CStr

/-! libc -/

/-- `strtok(str, delim)`.  `str = none` is the call `strtok(NULL, delim)`, which
resumes at the saved position `save`.  Leading delimiters are skipped; if
nothing is left there is no token (`none`) and the saved position is the end of
the string.  Otherwise the token runs up to the next delimiter or the end; a
delimiter is overwritten with NUL and the saved position is right behind it. -/
def strtok (str : Option CStr) (delim : CStr) (save : CStr) : Option CStr × CStr :=
  let s := match str with
    | some s => s
    | none => save
  match s.dropWhile (fun c => delim.contains c) with
  | [] => (none, [])
  | c :: r =>
    (some ((c :: r).takeWhile (fun x => !delim.contains x)),
     ((c :: r).dropWhile (fun x => !delim.contains x)).tail)

/-- The argument vector that `execv` reads from `args`: the strings in front of
the first NULL. -/
def argv : List Arg → List CStr
  | Arg.str s :: rest => s :: argv rest
  | _ => []

/-! `Shell::make_string`, `Shell::c_concat` -/

/-- `Shell::make_string`: `buf[strlen(buf)-1] = 0`, then a copy of `buf`. -/
def Shell.make_string (buf : CStr) : Except Fault CStr :=
  if buf.length = 0 then .error .underflow
  else .ok (buf.take (buf.length - 1))

/-- `Shell::c_concat`: `strcpy` of `a` followed by `strcat` of `b`. -/
def Shell.c_concat (a b : CStr) : CStr := a ++ b

/-! `Shell::execute(char*)`: the tokenizer -/

/-- `args[i] = v` on the array of `MAXARGS+1` slots. -/
def store (args : List Arg) (i : Nat) (v : Arg) : Except Fault (List Arg) :=
  if i < args.length then .ok (args.set i v) else .error (.oob i)

/-- Local state of the tokenizing loop; `writes` is a ghost log of the stores
into `args`, oldest first. -/
structure LoopState where
  args : List Arg
  argcount : Nat
  save : CStr
  writes : List (Nat × Arg)
  deriving DecidableEq, Repr

/-- The loop `while (argbuffer != NULL) { args[argcount++] = argbuffer;
argbuffer = strtok(NULL, " "); }`, with an iteration bound. -/
def Shell.tok_loop : Nat → Option CStr → LoopState → Except Fault LoopState
  | _, none, st => .ok st
  | 0, some _, _ => .error .fuel
  | fuel + 1, some tok, st =>
    match store st.args st.argcount (.str tok) with
    | .error f => .error f
    | .ok args1 =>
      let r := strtok none " ".toList st.save
      Shell.tok_loop fuel r.1
        { args := args1, argcount := st.argcount + 1, save := r.2,
          writes := st.writes ++ [(st.argcount, .str tok)] }

/-- What `execute(char*)` has when it calls `execute(command, args)`. -/
structure Tokens where
  command : CStr
  args : List Arg
  /-- saved position of `strtok` at that point -/
  save : CStr
  /-- ghost log of the stores into `args` -/
  writes : List (Nat × Arg)
  deriving DecidableEq, Repr

/-- Lines 52 to 71 of `Shell::execute(char*)`: `none` is the early
`return 0` taken when the first `strtok` finds no token. -/
def Shell.tokenize (input : CStr) : Except Fault (Option Tokens) :=
  match Shell.make_string input with
  | .error f => .error f
  | .ok input =>
    let r := strtok (some input) " ".toList []
    match r.1 with
    | none => .ok none
    | some command =>
      match Shell.tok_loop (input.length + 1) (some command)
          { args := List.replicate (MAXARGS + 1) Arg.junk, argcount := 0, save := r.2,
            writes := [] } with
      | .error f => .error f
      | .ok st =>
        match store st.args st.argcount Arg.null with
        | .error f => .error f
        | .ok args =>
          .ok (some { command := command, args := args, save := st.save,
                      writes := st.writes ++ [(st.argcount, Arg.null)] })

/-! `Shell::print_cwd`, `Shell::run`, `Shell::execute(char*, char*[])` -/

/-- `Shell::print_cwd`. -/
def Shell.print_cwd (w : World) : List Event × Int :=
  match w.cwd with
  | some d => ([Event.stdout (d ++ "\n".toList)], 1)
  | none => ([Event.stdout "ERROR! Unable to fetch present working directory!\n".toList], 0)

/-- The loop over the `PATH` directories in the child: `some o` when an `execv`
succeeded (or the iteration bound was used up), `none` when the loop ends. -/
def Shell.path_loop (w : World) (command : CStr) (args : List Arg) :
    Nat → Option CStr → CStr → Option Outcome
  | _, none, _ => none
  | 0, some _, _ => some (.fault .fuel)
  | fuel + 1, some tokenizedPath, save =>
    if w.execv_ok (Shell.c_concat tokenizedPath command) then
      some (.execed (Shell.c_concat tokenizedPath command) (argv args))
    else
      let r := strtok none ":".toList save
      Shell.path_loop w command args fuel r.1 r.2

/-- The child branch of `Shell::run` (`fork_rv == 0`). -/
def Shell.child (sh : Shell) (w : World) (save : CStr) (command : CStr) (args : List Arg) : Run :=
  if w.execv_ok (Shell.c_concat "./".toList command) then
    ⟨[], .execed (Shell.c_concat "./".toList command) (argv args)⟩
  else if w.execv_ok (Shell.c_concat "/usr/bin/".toList command) then
    ⟨[], .execed (Shell.c_concat "/usr/bin/".toList command) (argv args)⟩
  else if w.execv_ok (Shell.c_concat "/bin/".toList command) then
    ⟨[], .execed (Shell.c_concat "/bin/".toList command) (argv args)⟩
  else
    let r := strtok sh.fullPath ":".toList save
    let text := match sh.fullPath with
      | some p => p
      | none => save
    match Shell.path_loop w command args (text.length + 1) r.1 r.2 with
    | some o => ⟨[], o⟩
    | none => ⟨[Event.stdout "ERROR! Unrecognized command!\n".toList], .exited 0⟩

/-- `Shell::run`. -/
def Shell.run (sh : Shell) (w : World) (save : CStr) (command : CStr) (args : List Arg) : Run :=
  if w.fork_rv = 0 then
    let r := Shell.child sh w save command args
    ⟨Event.fork w.fork_rv :: r.trace, r.out⟩
  else if w.fork_rv > 0 then
    ⟨[Event.fork w.fork_rv, Event.wait], .ret 1⟩
  else
    ⟨[Event.fork w.fork_rv], .ret 0⟩

/-- `Shell::execute(char* command, char* args[])`. -/
def Shell.execute_args (sh : Shell) (w : World) (save : CStr) (command : CStr)
    (args : List Arg) : Run :=
  if command = [] ∨ command.head? = some '#' then ⟨[], .ret 1⟩
  else if command = "exit".toList ∨ command = "quit".toList then ⟨[], .exited 0⟩
  else if command = "pwd".toList ∨ command = "cwd".toList then
    ⟨(Shell.print_cwd w).1, .ret 1⟩
  else
    let r := Shell.run sh w save command args
    match r.out with
    | .ret v => if v ≠ 0 then ⟨r.trace, .ret 1⟩ else ⟨r.trace, .ret 0⟩
    | o => ⟨r.trace, o⟩

/-- `Shell::execute(char* input)`. -/
def Shell.execute (sh : Shell) (w : World) (input : CStr) : Run :=
  match Shell.tokenize input with
  | .error f => ⟨[], .fault f⟩
  | .ok none => ⟨[], .ret 0⟩
  | .ok (some t) => Shell.execute_args sh w t.save t.command t.args

/-! One pass through the loop of `main` -/

/-- The prompt `[ian-shell-%d]$ `. -/
def prompt (pid : Nat) : CStr :=
  "[ian-shell-".toList ++ (Nat.repr pid).toList ++ "]$ ".toList

/-- The body of `while(1)` in `main`; `line` is what `fgets` delivered (`none`
when it returned NULL).  The second component is `none` when the body runs to
its end, and the outcome that stopped the process otherwise. -/
def main_body (sh : Shell) (w : World) (line : Option CStr) : List Event × Option Outcome :=
  match line with
  | none => ([Event.stdout (prompt w.pid)], none)
  | some command =>
    if command.head? ≠ some '\n' then
      let r := Shell.execute sh w command
      match r.out with
      | .ret v =>
        if v = 0 then
          (Event.stdout (prompt w.pid) :: r.trace ++
            [Event.stdout "ERROR! Unable to execute command!\n".toList], none)
        else (Event.stdout (prompt w.pid) :: r.trace, none)
      | o => (Event.stdout (prompt w.pid) :: r.trace, some o)
    else ([Event.stdout (prompt w.pid)], none)

/-! The specification's vocabulary -/

/-- Tokens in the words of the specification: the maximal non-empty runs of
characters other than the separator `sep`, in their order. -/
def spec_tokens (sep : Char) (s : CStr) : List CStr :=
  (s.splitOn sep).filter (fun t => !t.isEmpty)

/-- The array `args` that holds the tokens `ts`, then NULL, the remaining slots
never written. -/
def args_of (ts : List CStr) : List Arg :=
  ts.map Arg.str ++ Arg.null :: List.replicate (MAXARGS - ts.length) Arg.junk

/-- The candidate paths for the command `c` in the order of the resolution
algorithm: `./c`, `/usr/bin/c`, `/bin/c`, then the concatenation of each
directory of the search path `path` with `c`. -/
def candidates (path : CStr) (c : CStr) : List CStr :=
  ["./".toList ++ c, "/usr/bin/".toList ++ c, "/bin/".toList ++ c] ++
    (spec_tokens ':' path).map (fun d => d ++ c)

/-- The command is none of the special cases of `execute(command, args)`. -/
@[reducible] def ordinary (c : CStr) : Prop :=
  c ≠ [] ∧ c.head? ≠ some '#' ∧ c ≠ "exit".toList ∧ c ≠ "quit".toList ∧
    c ≠ "pwd".toList ∧ c ≠ "cwd".toList

/-- A world for worked examples: process 7, `fork` returning `rv`, the paths in
`exe` executable, working directory `cwd`. -/
def world (rv : Int) (exe : List CStr) (cwd : Option CStr) : World :=
  { pid := 7, fork_rv := rv, execv_ok := fun p => exe.contains p, cwd := cwd }

/-- The text that the child tokenizes for the search path: `fullPath`, or, when
`PATH` is unset, whatever the saved position of `strtok` still holds. -/
def search_text (sh : Shell) (save : CStr) : CStr :=
  match sh.fullPath with
  | some p => p
  | none => save

/-- The result of the child for the first executable candidate, if any. -/
def child_result (found : Option CStr) (args : List Arg) : Run :=
  match found with
  | some p => ⟨[], .execed p (argv args)⟩
  | none => ⟨[Event.stdout "ERROR! Unrecognized command!\n".toList], .exited 0⟩

/-- Three tokens for a worked example. -/
def ls_tokens : List CStr := ["ls".toList, "-l".toList, "/tmp".toList]

/-- A line of exactly `MAXARGS` tokens. -/
def twenty_tokens : CStr := "a b c d e f g h i j k l m n o p q r s t\n".toList

/-- A comment line of `MAXARGS + 2` tokens. -/
def long_comment : CStr := "# a b c d e f g h i j k l m n o p q r s t u\n".toList

/-- The stores that the tokenizing loop makes for the tokens `ts` when it starts
at index `n`. -/
def stores_from (n : Nat) : List CStr → List (Nat × Arg)
  | [] => []
  | t :: ts => (n, Arg.str t) :: stores_from (n + 1) ts

/-- What `execute(char*)` hands over when the text holds the tokens `ts`:
nothing for no token (the early `return 0`), else the first token as command,
the array with all tokens and NULL, and one store per token and for NULL. -/
def tokens_of : List CStr → Option Tokens
  | [] => none
  | t :: ts =>
    some { command := t, args := args_of (t :: ts), save := [],
           writes := stores_from 0 (t :: ts) ++ [((t :: ts).length, Arg.null)] }

/-! Lemmas on `strtok` and the specification's tokens -/

theorem splitOnP_takeWhile (p : Char → Bool) (s : CStr) :
    s.splitOnP p = s.takeWhile (fun x => !p x) ::
      (match s.dropWhile (fun x => !p x) with
       | [] => []
       | _ :: r => r.splitOnP p) := by
  induction s with
  | nil => simp
  | cons c r ih =>
    rw [List.splitOnP_cons]
    by_cases h : p c
    · simp [h]
    · simp only [h, Bool.false_eq_true, if_false]
      rw [ih]
      simp [h]

theorem spec_tokens_nil (d : Char) : spec_tokens d [] = [] := by
  simp [spec_tokens]

theorem spec_tokens_sep (d : Char) (r : CStr) : spec_tokens d (d :: r) = spec_tokens d r := by
  simp [spec_tokens, List.splitOn]

theorem spec_tokens_cons (d c : Char) (r : CStr) (h : c ≠ d) :
    spec_tokens d (c :: r) =
      (c :: r.takeWhile (fun x => !decide (x = d))) ::
        spec_tokens d (r.dropWhile (fun x => !decide (x = d))).tail := by
  have hc : (c == d) = false := by simpa using h
  have e : (fun x : Char => !(x == d)) = (fun x => !decide (x = d)) := by funext x; rfl
  unfold spec_tokens List.splitOn
  rw [List.splitOnP_cons, splitOnP_takeWhile, e]
  simp only [hc, Bool.false_eq_true, if_false, List.modifyHead_cons]
  cases hd : r.dropWhile (fun x => !decide (x = d)) with
  | nil => simp
  | cons a t => simp

theorem strtok_some (delim s save : CStr) : strtok (some s) delim save = strtok none delim s := rfl

theorem strtok_sep (d : Char) (r : CStr) : strtok none [d] (d :: r) = strtok none [d] r := by
  simp [strtok]

theorem nondelim_eq (d : Char) :
    (fun x => !([d].contains x)) = (fun x => !decide (x = d)) := by
  funext x; simp

theorem delim_eq (d : Char) : (fun x => [d].contains x) = (fun x => decide (x = d)) := by
  funext x; simp

theorem strtok_cons (d c : Char) (r : CStr) (h : c ≠ d) :
    strtok none [d] (c :: r) =
      (some (c :: r.takeWhile (fun x => !decide (x = d))),
        (r.dropWhile (fun x => !decide (x = d))).tail) := by
  have hc : decide (c = d) = false := by simpa using h
  unfold strtok
  simp only [nondelim_eq, delim_eq, List.dropWhile_cons, List.takeWhile_cons, hc,
    Bool.false_eq_true, if_false, Bool.not_false, if_true]

/-- One call of `strtok(NULL, d)` against the specification's tokens of the text
still to be scanned: either there is no token left, or the call returns the
first one and leaves a strictly shorter text that holds the others. -/
theorem strtok_spec (d : Char) (s : CStr) :
    (strtok none [d] s = (none, []) ∧ spec_tokens d s = []) ∨
    ∃ t s1, strtok none [d] s = (some t, s1) ∧ spec_tokens d s = t :: spec_tokens d s1 ∧
      s1.length < s.length := by
  induction s with
  | nil => left; simp [strtok, spec_tokens_nil]
  | cons c r ih =>
    by_cases h : c = d
    · subst h
      rw [strtok_sep, spec_tokens_sep]
      rcases ih with h0 | ⟨t, s1, h1, h2, h3⟩
      · exact Or.inl h0
      · exact Or.inr ⟨t, s1, h1, h2, by simp; omega⟩
    · right
      refine ⟨_, _, strtok_cons d c r h, spec_tokens_cons d c r h, ?_⟩
      have := (List.dropWhile_sublist (l := r) (fun x => !decide (x = d))).length_le
      simp only [List.length_tail, List.length_cons]
      omega

theorem space_delim : " ".toList = [' '] := rfl

theorem colon_delim : ":".toList = [':'] := rfl

theorem set_first_free (pre : List Arg) (k : Nat) (v : Arg) :
    (pre ++ List.replicate (k + 1) Arg.junk).set pre.length v =
      pre ++ v :: List.replicate k Arg.junk := by
  induction pre with
  | nil => simp [List.replicate_succ]
  | cons a t ih => simpa using ih

theorem store_first_free (pre : List Arg) (k : Nat) (v : Arg) :
    store (pre ++ List.replicate (k + 1) Arg.junk) pre.length v =
      .ok (pre ++ v :: List.replicate k Arg.junk) := by
  unfold store
  rw [if_pos (by simp), set_first_free]

/-- The tokenizing loop against the specification's tokens: entered with the
token `tok` in hand, `rest` still in the text and more free slots than tokens,
it stores `tok` and `rest` in order from the first free slot on and ends with
the text used up. -/
theorem tok_loop_spec (rest : List CStr) :
    ∀ (fuel : Nat) (tok : CStr) (pre : List Arg) (k : Nat) (save : CStr)
      (ws : List (Nat × Arg)),
      spec_tokens ' ' save = rest → save.length < fuel → rest.length ≤ k →
      Shell.tok_loop fuel (some tok)
          { args := pre ++ List.replicate (k + 1) Arg.junk, argcount := pre.length,
            save := save, writes := ws } =
        .ok { args := pre ++ (tok :: rest).map Arg.str ++
                List.replicate (k - rest.length) Arg.junk,
              argcount := pre.length + 1 + rest.length, save := [],
              writes := ws ++ stores_from pre.length (tok :: rest) } := by
  induction rest with
  | nil =>
    intro fuel tok pre k save ws hs hf _
    cases fuel with
    | zero => omega
    | succ fuel =>
      have h0 : strtok none [' '] save = (none, []) := by
        rcases strtok_spec ' ' save with h | ⟨t, s1, _, h2, _⟩
        · exact h.1
        · rw [hs] at h2; cases h2
      simp [Shell.tok_loop, store_first_free, space_delim, h0, stores_from]
  | cons t ts ih =>
    intro fuel tok pre k save ws hs hf hk
    cases fuel with
    | zero => omega
    | succ fuel =>
      obtain ⟨s1, h1, h2, h3⟩ : ∃ s1, strtok none [' '] save = (some t, s1) ∧
          spec_tokens ' ' s1 = ts ∧ s1.length < save.length := by
        rcases strtok_spec ' ' save with h | ⟨t1, s1, h1, h2, h3⟩
        · rw [hs] at h; cases h.2
        · rw [hs] at h2
          injection h2 with e1 e2
          subst e1
          exact ⟨s1, h1, e2.symm, h3⟩
      simp only [List.length_cons] at hk
      obtain ⟨k1, rfl⟩ : ∃ k1, k = k1 + 1 := ⟨k - 1, by omega⟩
      have := ih fuel t (pre ++ [Arg.str tok]) k1 s1 (ws ++ [(pre.length, Arg.str tok)])
        h2 (by omega) (by omega)
      simp only [List.length_append, List.length_singleton, List.append_assoc,
        List.singleton_append] at this
      simp only [Shell.tok_loop, store_first_free, space_delim, h1, this, stores_from, List.map_cons,
        List.length_cons, List.append_assoc, List.cons_append, List.nil_append]
      congr 2
      · simp
      · omega

theorem make_string_eq (buf : CStr) (h : buf ≠ []) :
    Shell.make_string buf = .ok buf.dropLast := by
  unfold Shell.make_string
  rw [if_neg (by simpa using h), List.dropLast_eq_take]

/-- The tokenizer on any non-empty input whose text without the last character
holds at most `MAXARGS` tokens. -/
theorem tokenize_spec (input : CStr) (hne : input ≠ [])
    (hn : (spec_tokens ' ' input.dropLast).length ≤ MAXARGS) :
    Shell.tokenize input = .ok (tokens_of (spec_tokens ' ' input.dropLast)) := by
  unfold Shell.tokenize
  rw [make_string_eq input hne]
  simp only [strtok_some, space_delim]
  rcases strtok_spec ' ' input.dropLast with ⟨h1, h2⟩ | ⟨t, s1, h1, h2, h3⟩
  · rw [h1, h2]; rfl
  · rw [h2] at hn
    simp only [List.length_cons, MAXARGS] at hn
    have hl := tok_loop_spec (spec_tokens ' ' s1) (input.dropLast.length + 1) t [] 20 s1 []
      rfl (by omega) (by omega)
    simp only [List.nil_append, List.length_nil] at hl
    rw [show 0 + 1 + (spec_tokens ' ' s1).length = (spec_tokens ' ' s1).length + 1 by omega] at hl
    rw [h1, h2]
    simp only [MAXARGS, hl, tokens_of, args_of]
    obtain ⟨k, hk⟩ : ∃ k, 20 - (spec_tokens ' ' s1).length = k + 1 :=
      ⟨20 - (spec_tokens ' ' s1).length - 1, by omega⟩
    have hs := store_first_free ((t :: spec_tokens ' ' s1).map Arg.str) k Arg.null
    simp only [List.length_map, List.length_cons] at hs
    rw [hk, hs]
    have : 20 - ((spec_tokens ' ' s1).length + 1) = k := by omega
    simp [this]

theorem argv_strs (ts : List CStr) (x : List Arg) :
    argv (ts.map Arg.str ++ Arg.null :: x) = ts := by
  induction ts with
  | nil => simp [argv]
  | cons t ts ih =>
    show t :: argv (ts.map Arg.str ++ Arg.null :: x) = t :: ts
    rw [ih]

theorem argv_args_of (ts : List CStr) : argv (args_of ts) = ts := argv_strs ts _

theorem stores_from_fst (ts : List CStr) (n : Nat) :
    (stores_from n ts).map Prod.fst = List.range' n ts.length := by
  induction ts generalizing n with
  | nil => rfl
  | cons t ts ih => simp [stores_from, ih, List.range']

theorem stores_from_snd (ts : List CStr) (n : Nat) :
    ∀ p ∈ stores_from n ts, p.2 ≠ Arg.null := by
  induction ts generalizing n with
  | nil => simp [stores_from]
  | cons t ts ih =>
    intro p hp
    simp only [stores_from, List.mem_cons] at hp
    rcases hp with rfl | hp
    · simp
    · exact ih _ p hp

theorem args_of_length (ts : List CStr) (h : ts.length ≤ MAXARGS) :
    (args_of ts).length = MAXARGS + 1 := by
  simp [args_of]; omega

theorem spec_tokens_intercalate (ts : List CStr) (hne : ts ≠ [])
    (hok : ∀ t ∈ ts, t ≠ [] ∧ ' ' ∉ t) :
    spec_tokens ' ' ([' '].intercalate ts) = ts := by
  unfold spec_tokens
  rw [List.splitOn_intercalate ts ' ' (fun l hl => (hok l hl).2) hne]
  rw [List.filter_eq_self]
  intro t ht
  have := (hok t ht).1
  cases t with
  | nil => exact absurd rfl this
  | cons a b => rfl

/-! The tokenizer claims -/

/-- C1: for every line `body ++ "\n"` whose text `body` holds at most `MAXARGS`
tokens (maximal non-empty runs of characters other than the space, so a tab
stays inside a token), the tokenizer of `Shell::execute(char*)` ends without a
fault and hands over exactly those tokens: with a first token `t`, the call
made is `execute(t, args)` where `args` holds the tokens in order followed by
NULL, `args[0]` being `t`.  (With no token the early `return 0` is taken and
nothing is handed over.) -/
theorem C1_tokens_handed_to_execute (body : CStr)
    (hn : (spec_tokens ' ' body).length ≤ MAXARGS) :
    Shell.tokenize (body ++ ['\n']) = .ok (tokens_of (spec_tokens ' ' body)) ∧
    ∀ t ts, spec_tokens ' ' body = t :: ts →
      (∀ sh w, Shell.execute sh w (body ++ ['\n']) =
        Shell.execute_args sh w [] t (args_of (t :: ts))) ∧
      argv (args_of (t :: ts)) = t :: ts ∧
      (args_of (t :: ts))[0]? = some (Arg.str t) ∧
      (args_of (t :: ts))[(t :: ts).length]? = some Arg.null := by
  have hd : (body ++ ['\n']).dropLast = body := by simp
  have htk : Shell.tokenize (body ++ ['\n']) = .ok (tokens_of (spec_tokens ' ' body)) := by
    have := tokenize_spec (body ++ ['\n']) (by simp) (by rw [hd]; exact hn)
    rwa [hd] at this
  refine ⟨htk, ?_⟩
  intro t ts hts
  refine ⟨?_, argv_args_of _, ?_, ?_⟩
  · intro sh w
    unfold Shell.execute
    rw [htk, hts]
    rfl
  · simp [args_of]
  · unfold args_of
    rw [List.getElem?_append_right (by simp)]
    simp

/-- C1, the example of the specification: `echo hello world` with its newline
gives command `echo` and arguments `echo`, `hello`, `world`. -/
theorem C1_echo_hello_world :
    (spec_tokens ' ' "echo hello world".toList).length ≤ MAXARGS ∧
    Shell.tokenize "echo hello world\n".toList =
      .ok (tokens_of ["echo".toList, "hello".toList, "world".toList]) ∧
    argv (args_of ["echo".toList, "hello".toList, "world".toList]) =
      ["echo".toList, "hello".toList, "world".toList] :=
  ⟨by decide,
   (C1_tokens_handed_to_execute "echo hello world".toList (by decide)).1,
   ((C1_tokens_handed_to_execute "echo hello world".toList (by decide)).2
      "echo".toList ["hello".toList, "world".toList] (by decide)).2.1⟩

/-- C8 (round trip): for a list `ts` of at least one and at most `MAXARGS`
tokens, each non-empty and free of space, newline and NUL, the tokenizer run on
the tokens joined by single spaces and closed by a newline hands over an
argument vector equal to `ts` with the first element of `ts` as command, so
joining the vector with single spaces gives the line without its newline. -/
theorem C8_round_trip (ts : List CStr) (h1 : 1 ≤ ts.length) (h20 : ts.length ≤ MAXARGS)
    (hok : ∀ t ∈ ts, t ≠ [] ∧ ' ' ∉ t ∧ '\n' ∉ t ∧ Char.ofNat 0 ∉ t) :
    ∃ tk, Shell.tokenize ([' '].intercalate ts ++ ['\n']) = .ok (some tk) ∧
      argv tk.args = ts ∧ some tk.command = ts.head? ∧
      [' '].intercalate (argv tk.args) = [' '].intercalate ts := by
  have hne : ts ≠ [] := by
    intro h; rw [h] at h1; simp at h1
  have hsp : spec_tokens ' ' ([' '].intercalate ts) = ts :=
    spec_tokens_intercalate ts hne (fun t ht => ⟨(hok t ht).1, (hok t ht).2.1⟩)
  have hd : ([' '].intercalate ts ++ ['\n']).dropLast = [' '].intercalate ts := by simp
  have htk := tokenize_spec ([' '].intercalate ts ++ ['\n']) (by simp)
    (by rw [hd, hsp]; exact h20)
  rw [hd, hsp] at htk
  cases ts with
  | nil => exact absurd rfl hne
  | cons t rest =>
    refine ⟨_, htk, ?_, rfl, ?_⟩
    · exact argv_args_of _
    · rw [argv_args_of]

/-- C8 at the tokens `ls`, `-l`, `/tmp`. -/
theorem C8_round_trip_ls :
    1 ≤ ls_tokens.length ∧ ls_tokens.length ≤ MAXARGS ∧
    (∀ t ∈ ls_tokens, t ≠ [] ∧ ' ' ∉ t ∧ '\n' ∉ t ∧ Char.ofNat 0 ∉ t) ∧
    ∃ tk, Shell.tokenize "ls -l /tmp\n".toList = .ok (some tk) ∧
      argv tk.args = ls_tokens ∧
      some tk.command = some "ls".toList ∧
      [' '].intercalate (argv tk.args) = "ls -l /tmp".toList :=
  ⟨by decide, by decide, by decide,
   C8_round_trip ls_tokens (by decide) (by decide) (by decide)⟩

/-- C10: for every non-empty input whose text (the line without its final
character) holds at most `MAXARGS` tokens, the tokenizer ends without a fault,
so the store outside `args[0..MAXARGS]` is never reached; when it gets to the
loop, `args` keeps its `MAXARGS+1` slots, the stores are made at the indices
`0, 1, .., n` in this order (`n` the number of tokens), all at most `MAXARGS`,
and the only store of NULL is the last one, at index `n`. -/
theorem C10_stores_within_args (input : CStr) (hne : input ≠ [])
    (hn : (spec_tokens ' ' input.dropLast).length ≤ MAXARGS) :
    (∀ i, Shell.tokenize input ≠ .error (Fault.oob i)) ∧
    ∃ r, Shell.tokenize input = .ok r ∧
      (r = none ↔ spec_tokens ' ' input.dropLast = []) ∧
      ∀ tk, r = some tk →
        tk.args.length = MAXARGS + 1 ∧
        (∀ p ∈ tk.writes, p.1 ≤ MAXARGS) ∧
        tk.writes.map Prod.fst = List.range ((spec_tokens ' ' input.dropLast).length + 1) ∧
        tk.writes.getLast? = some ((spec_tokens ' ' input.dropLast).length, Arg.null) ∧
        (∀ p ∈ tk.writes, p.2 = Arg.null → p.1 = (spec_tokens ' ' input.dropLast).length) ∧
        tk.args[(spec_tokens ' ' input.dropLast).length]? = some Arg.null := by
  have htk := tokenize_spec input hne hn
  refine ⟨fun i h => ?_, _, htk, ?_, ?_⟩
  · rw [htk] at h; cases h
  · cases spec_tokens ' ' input.dropLast <;> simp [tokens_of]
  · intro tk hr
    generalize spec_tokens ' ' input.dropLast = ts at hn hr
    cases ts with
    | nil => cases hr
    | cons t rest =>
      simp only [tokens_of, Option.some.injEq] at hr
      subst hr
      have hfst : (stores_from 0 (t :: rest) ++ [((t :: rest).length, Arg.null)]).map Prod.fst
          = List.range ((t :: rest).length + 1) := by
        rw [List.map_append, stores_from_fst, List.range_eq_range', List.range'_concat]
        simp
      refine ⟨args_of_length _ hn, ?_, hfst, by simp, ?_, ?_⟩
      · intro p hp
        have : p.1 ∈ List.range ((t :: rest).length + 1) := by
          rw [← hfst]; exact List.mem_map_of_mem _ hp
        rw [List.mem_range] at this
        omega
      · intro p hp hnull
        rw [List.mem_append] at hp
        rcases hp with hp | hp
        · exact absurd hnull (stores_from_snd _ _ p hp)
        · simp only [List.mem_singleton] at hp
          rw [hp]
      · show (args_of (t :: rest))[(t :: rest).length]? = some Arg.null
        unfold args_of
        rw [List.getElem?_append_right (by simp)]
        simp

/-- C10 at a line of exactly `MAXARGS` tokens: the last store is the NULL at
index `MAXARGS`, and no store is out of bounds. -/
theorem C10_twenty_tokens :
    twenty_tokens ≠ [] ∧
    (spec_tokens ' ' twenty_tokens.dropLast).length ≤ MAXARGS ∧
    (∀ i, Shell.tokenize twenty_tokens ≠ .error (Fault.oob i)) ∧
    ∃ r, Shell.tokenize twenty_tokens = .ok r ∧
      ∀ tk, r = some tk →
        tk.writes.getLast? =
          some ((spec_tokens ' ' twenty_tokens.dropLast).length, Arg.null) :=
  ⟨by decide, by decide,
   (C10_stores_within_args twenty_tokens (by decide) (by decide)).1,
   (C10_stores_within_args twenty_tokens (by decide) (by decide)).2.imp
     (fun _ h => ⟨h.1, fun tk e => (h.2.2 tk e).2.2.2.1⟩)⟩

/-- C6: `Shell::make_string` removes the last character of its input whatever
that character is.  The line `ls` read without a newline loses its `s`: the
text that is tokenized is `l`, and the only token handed over is `l`, whereas
the tokens of the whole line are `ls`. -/
theorem C6_last_character_lost :
    (∀ (body : CStr) (c : Char), Shell.make_string (body ++ [c]) = .ok body) ∧
    Shell.make_string "ls".toList = .ok "l".toList ∧
    Shell.tokenize "ls".toList = .ok (tokens_of ["l".toList]) ∧
    spec_tokens ' ' "ls".toList = ["ls".toList] := by
  refine ⟨fun body c => ?_, by rfl, by rfl, by decide⟩
  rw [make_string_eq _ (by simp)]
  simp

/-- A comment line within the bounds of the tokenizer: when the first character
is `#`, at least one more character follows (such as the newline) and the text
holds at most `MAXARGS` tokens, `Shell::execute(char*)` returns 1 with an empty
trace, so `Shell::run` is not called, no `fork` is made and nothing is
printed. -/
theorem comment_line_within_bounds (sh : Shell) (w : World) (rest : CStr)
    (hrest : rest ≠ [])
    (hn : (spec_tokens ' ' ('#' :: rest).dropLast).length ≤ MAXARGS) :
    Shell.execute sh w ('#' :: rest) = ⟨[], .ret 1⟩ := by
  have htk := tokenize_spec ('#' :: rest) (by simp) hn
  have hd : ('#' :: rest).dropLast = '#' :: rest.dropLast := by
    cases rest with
    | nil => exact absurd rfl hrest
    | cons a b => rfl
  rw [hd, spec_tokens_cons ' ' '#' _ (by decide)] at htk
  unfold Shell.execute
  rw [htk]
  simp [tokens_of, Shell.execute_args]

/-- The comment line `# list files` returns 1 with an empty trace. -/
theorem comment_line_within_bounds_example :
    "# list files\n".toList.tail ≠ [] ∧
    (spec_tokens ' ' "# list files\n".toList.dropLast).length ≤ MAXARGS ∧
    Shell.execute ⟨none⟩ (world 1 [] none) "# list files\n".toList = ⟨[], .ret 1⟩ :=
  ⟨by decide, by decide,
   comment_line_within_bounds ⟨none⟩ (world 1 [] none) " list files\n".toList
     (by decide) (by decide)⟩

/-- C9: the comment test `command[0]=='#'` sits behind the tokenizer, and two
comment lines do not get to it.  On the comment line of 22 tokens
`# a b c .. u` the tokenizing loop stores to `args[21]`, outside the array of
`MAXARGS+1` slots, so the call does not end in `return 1`.  The line made of
`#` alone, read without a newline, is cut to the empty text by `make_string`:
`execute(char*)` returns 0 and `main` prints
`ERROR! Unable to execute command!`.  A short comment line such as
`# list files` does return 1 with nothing printed. -/
theorem C9_comment_line_defects :
    (spec_tokens ' ' long_comment.dropLast).length = MAXARGS + 2 ∧
    long_comment.head? = some '#' ∧
    (∀ sh w, Shell.execute sh w long_comment = ⟨[], .fault (Fault.oob (MAXARGS + 1))⟩) ∧
    (∀ sh w, Shell.execute sh w "#".toList = ⟨[], .ret 0⟩) ∧
    (∀ sh w, main_body sh w (some "#".toList) =
      ([Event.stdout (prompt w.pid),
        Event.stdout "ERROR! Unable to execute command!\n".toList], none)) ∧
    (∀ sh w, Shell.execute sh w "# list files\n".toList = ⟨[], .ret 1⟩) :=
  ⟨by decide, by decide, fun _ _ => rfl, fun _ _ => rfl, fun _ _ => rfl, fun _ _ => rfl⟩

theorem spec_tokens_spaces (k : Nat) : spec_tokens ' ' (List.replicate k ' ') = [] := by
  induction k with
  | zero => exact spec_tokens_nil ' '
  | succ k ih => rw [List.replicate_succ, spec_tokens_sep, ih]

theorem execute_spaces (sh : Shell) (w : World) (k : Nat) :
    Shell.execute sh w (List.replicate (k + 1) ' ' ++ ['\n']) = ⟨[], .ret 0⟩ := by
  have hd : (List.replicate (k + 1) ' ' ++ ['\n']).dropLast = List.replicate (k + 1) ' ' := by
    simp
  have htk := tokenize_spec (List.replicate (k + 1) ' ' ++ ['\n']) (by simp)
    (by rw [hd, spec_tokens_spaces]; simp)
  rw [hd, spec_tokens_spaces] at htk
  unfold Shell.execute
  rw [htk]
  rfl

/-- The tab is no separator: it stays inside the token. -/
theorem spec_tokens_tab :
    spec_tokens ' ' "a\tb  c".toList = ["a\tb".toList, "c".toList] := by decide

/-- C4: on a line made of one or more spaces and a newline no child is created,
but `Shell::execute(char*)` returns 0 and the loop of `main` prints
`ERROR! Unable to execute command!`; only the line made of the newline alone is
skipped without a message. -/
theorem C4_blank_line_reports_error :
    (∀ sh w, Shell.execute sh w " \n".toList = ⟨[], .ret 0⟩) ∧
    (∀ sh w, main_body sh w (some " \n".toList) =
      ([Event.stdout (prompt w.pid),
        Event.stdout "ERROR! Unable to execute command!\n".toList], none)) ∧
    (∀ sh w k, main_body sh w (some (List.replicate (k + 1) ' ' ++ ['\n'])) =
      ([Event.stdout (prompt w.pid),
        Event.stdout "ERROR! Unable to execute command!\n".toList], none)) ∧
    (∀ sh w, main_body sh w (some "\n".toList) = ([Event.stdout (prompt w.pid)], none)) := by
  refine ⟨fun _ _ => rfl, fun _ _ => rfl, fun sh w k => ?_, fun _ _ => rfl⟩
  unfold main_body
  simp only [execute_spaces]
  rw [if_pos (by simp [List.replicate_succ])]
  rfl

/-! Resolution and launch -/

/-- The loop over the `PATH` directories, entered with the directory `dir` in
hand and the directories `rest` still in the text: it launches the first
executable concatenation of a directory with the command, and ends without a
launch when there is none. -/
theorem path_loop_spec (w : World) (c : CStr) (args : List Arg) (rest : List CStr) :
    ∀ (fuel : Nat) (dir save : CStr),
      spec_tokens ':' save = rest → save.length < fuel →
      Shell.path_loop w c args fuel (some dir) save =
        (((dir :: rest).map (fun d => d ++ c)).find? w.execv_ok).map
          (fun p => Outcome.execed p (argv args)) := by
  induction rest with
  | nil =>
    intro fuel dir save hs hf
    cases fuel with
    | zero => omega
    | succ fuel =>
      have h0 : strtok none [':'] save = (none, []) := by
        rcases strtok_spec ':' save with h | ⟨t, s1, _, h2, _⟩
        · exact h.1
        · rw [hs] at h2; cases h2
      by_cases hx : w.execv_ok (dir ++ c) = true
      · simp [Shell.path_loop, Shell.c_concat, hx]
      · simp [Shell.path_loop, Shell.c_concat, hx, colon_delim, h0]
  | cons t ts ih =>
    intro fuel dir save hs hf
    cases fuel with
    | zero => omega
    | succ fuel =>
      obtain ⟨s1, h1, h2, h3⟩ : ∃ s1, strtok none [':'] save = (some t, s1) ∧
          spec_tokens ':' s1 = ts ∧ s1.length < save.length := by
        rcases strtok_spec ':' save with h | ⟨t1, s1, h1, h2, h3⟩
        · rw [hs] at h; cases h.2
        · rw [hs] at h2
          injection h2 with e1 e2
          subst e1
          exact ⟨s1, h1, e2.symm, h3⟩
      by_cases hx : w.execv_ok (dir ++ c) = true
      · simp [Shell.path_loop, Shell.c_concat, hx]
      · have := ih fuel t s1 h2 (by omega)
        simp only [Shell.path_loop, Shell.c_concat, hx, colon_delim, h1, this]
        simp [hx]

/-- The child branch of `Shell::run` launches the first executable candidate
and reports an unrecognized command when there is none. -/
theorem child_spec (sh : Shell) (w : World) (save c : CStr) (args : List Arg) :
    Shell.child sh w save c args =
      child_result ((candidates (search_text sh save) c).find? w.execv_ok) args := by
  have hst : strtok sh.fullPath [':'] save = strtok none [':'] (search_text sh save) := by
    unfold search_text
    cases sh.fullPath <;> rfl
  have hlen : (match sh.fullPath with
      | some p => p
      | none => save) = search_text sh save := rfl
  unfold Shell.child candidates child_result
  simp only [Shell.c_concat, colon_delim, hst, hlen]
  generalize "./".toList = p1
  generalize "/usr/bin/".toList = p2
  generalize "/bin/".toList = p3
  generalize "ERROR! Unrecognized command!\n".toList = msg
  by_cases h1 : w.execv_ok (p1 ++ c) = true
  · simp [h1]
  by_cases h2 : w.execv_ok (p2 ++ c) = true
  · simp [h1, h2]
  by_cases h3 : w.execv_ok (p3 ++ c) = true
  · simp [h1, h2, h3]
  simp only [h1, h2, h3, Bool.false_eq_true, if_false, List.cons_append, List.nil_append,
    List.find?_cons_of_neg, not_false_eq_true]
  rcases strtok_spec ':' (search_text sh save) with ⟨e1, e2⟩ | ⟨t, s1, e1, e2, e3⟩
  · rw [e1, e2]
    simp [Shell.path_loop]
  · rw [e1, e2]
    simp only []
    rw [path_loop_spec w c args _ _ t s1 rfl (by omega)]
    cases hf : List.find? w.execv_ok (List.map (fun d => d ++ c) (t :: spec_tokens ':' s1)) <;>
      simp

theorem find_first (ok : CStr → Bool) (pre post : List CStr) (p : CStr)
    (hpre : ∀ q ∈ pre, ok q = false) (hp : ok p = true) :
    (pre ++ p :: post).find? ok = some p := by
  induction pre with
  | nil => simp [hp]
  | cons a t ih =>
    have ha : ok a = false := hpre a (List.mem_cons_self a t)
    simp only [List.cons_append, List.find?_cons, ha]
    exact ih (fun q hq => hpre q (List.mem_cons_of_mem a hq))

theorem run_child (sh : Shell) (w : World) (save c : CStr) (args : List Arg)
    (hchild : w.fork_rv = 0) :
    Shell.run sh w save c args =
      ⟨Event.fork 0 ::
          (child_result ((candidates (search_text sh save) c).find? w.execv_ok) args).trace,
        (child_result ((candidates (search_text sh save) c).find? w.execv_ok) args).out⟩ := by
  unfold Shell.run
  rw [if_pos hchild, child_spec, hchild]

theorem execute_args_ordinary (sh : Shell) (w : World) (save c : CStr) (args : List Arg)
    (hc : ordinary c) :
    Shell.execute_args sh w save c args =
      (match (Shell.run sh w save c args).out with
       | .ret v =>
         if v ≠ 0 then ⟨(Shell.run sh w save c args).trace, .ret 1⟩
         else ⟨(Shell.run sh w save c args).trace, .ret 0⟩
       | o => ⟨(Shell.run sh w save c args).trace, o⟩) := by
  obtain ⟨h1, h2, h3, h4, h5, h6⟩ := hc
  unfold Shell.execute_args
  rw [if_neg (not_or.mpr ⟨h1, h2⟩), if_neg (not_or.mpr ⟨h3, h4⟩),
    if_neg (not_or.mpr ⟨h5, h6⟩)]

/-- C2: for a command `c` that is not a special command, in the child
(`fork` returned 0) `execute(command, args)` is `Shell::run`, which tries
`./c`, `/usr/bin/c`, `/bin/c` and then the concatenation of each directory of
the search path with `c`, in stored order: the image launched is the first
candidate that `execv` accepts, whatever candidates in front of it were
refused, and only when there is none the unrecognized command is reported.  In
particular an executable `./c` is the one launched. -/
theorem C2_first_executable_candidate (sh : Shell) (w : World) (save c : CStr)
    (args : List Arg) (hc : ordinary c) (hchild : w.fork_rv = 0) :
    Shell.execute_args sh w save c args = Shell.run sh w save c args ∧
    Shell.run sh w save c args =
      (match (candidates (search_text sh save) c).find? w.execv_ok with
       | some p => ⟨[Event.fork 0], .execed p (argv args)⟩
       | none =>
         ⟨[Event.fork 0, Event.stdout "ERROR! Unrecognized command!\n".toList], .exited 0⟩) ∧
    (∀ pre p post, candidates (search_text sh save) c = pre ++ p :: post →
      (∀ q ∈ pre, w.execv_ok q = false) → w.execv_ok p = true →
      Shell.run sh w save c args = ⟨[Event.fork 0], .execed p (argv args)⟩) ∧
    (w.execv_ok ("./".toList ++ c) = true →
      Shell.run sh w save c args = ⟨[Event.fork 0], .execed ("./".toList ++ c) (argv args)⟩) := by
  have hrun : Shell.run sh w save c args =
      (match (candidates (search_text sh save) c).find? w.execv_ok with
       | some p => ⟨[Event.fork 0], .execed p (argv args)⟩
       | none =>
         ⟨[Event.fork 0, Event.stdout "ERROR! Unrecognized command!\n".toList],
          .exited 0⟩) := by
    rw [run_child sh w save c args hchild]
    cases (candidates (search_text sh save) c).find? w.execv_ok <;> rfl
  have hfirst : ∀ pre p post, candidates (search_text sh save) c = pre ++ p :: post →
      (∀ q ∈ pre, w.execv_ok q = false) → w.execv_ok p = true →
      Shell.run sh w save c args = ⟨[Event.fork 0], .execed p (argv args)⟩ := by
    intro pre p post hcand hpre hp
    rw [hrun, hcand, find_first w.execv_ok pre post p hpre hp]
  refine ⟨?_, hrun, hfirst, ?_⟩
  · rw [execute_args_ordinary sh w save c args hc, hrun]
    cases (candidates (search_text sh save) c).find? w.execv_ok <;> rfl
  · intro h
    exact hfirst [] _ _ rfl (by simp) h

/-- C2 where `./foo` and `/bin/foo` are both executable: `./foo` is launched. -/
theorem C2_dot_slash_shadows_bin :
    ordinary "foo".toList ∧
    (world 0 ["/bin/foo".toList, "./foo".toList] none).fork_rv = 0 ∧
    Shell.run ⟨some "/opt/bin/".toList⟩ (world 0 ["/bin/foo".toList, "./foo".toList] none) []
        "foo".toList (args_of ["foo".toList]) =
      ⟨[Event.fork 0], .execed "./foo".toList ["foo".toList]⟩ :=
  ⟨by decide, rfl,
   (C2_first_executable_candidate ⟨some "/opt/bin/".toList⟩
      (world 0 ["/bin/foo".toList, "./foo".toList] none) [] "foo".toList
      (args_of ["foo".toList]) (by decide) rfl).2.2.2 (by decide)⟩

/-- C3: with `PATH` set to `/usr/local/bin` and `/usr/local/bin/foo` the only
executable file, the candidate formed for the directory is `/usr/local/binfoo`
(`c_concat` puts no slash in between), no `execv` succeeds and the child prints
`ERROR! Unrecognized command!`; the file is found only when the `PATH` entry
itself ends in a slash. -/
theorem C3_path_entry_without_slash :
    candidates "/usr/local/bin".toList "foo".toList =
      ["./foo".toList, "/usr/bin/foo".toList, "/bin/foo".toList,
       "/usr/local/binfoo".toList] ∧
    Shell.execute ⟨some "/usr/local/bin".toList⟩
        (world 0 ["/usr/local/bin/foo".toList] none) "foo\n".toList =
      ⟨[Event.fork 0, Event.stdout "ERROR! Unrecognized command!\n".toList], .exited 0⟩ ∧
    Shell.execute ⟨some "/usr/local/bin/".toList⟩
        (world 0 ["/usr/local/bin/foo".toList] none) "foo\n".toList =
      ⟨[Event.fork 0], .execed "/usr/local/bin/foo".toList ["foo".toList]⟩ :=
  ⟨by decide, by decide, by decide⟩

/-- C5: for a command that is not a special command and any arguments,
`execute(command, args)` returns 0 exactly when `fork` fails (returns a
negative value), and then no `wait` is made; when `fork` returns a positive
value the parent makes one `wait` and returns 1, whatever `execv` accepts. -/
theorem C5_failure_iff_fork_fails (sh : Shell) (w : World) (save c : CStr)
    (args : List Arg) (hc : ordinary c) :
    ((Shell.execute_args sh w save c args).out = .ret 0 ↔ w.fork_rv < 0) ∧
    (w.fork_rv < 0 →
      Shell.execute_args sh w save c args = ⟨[Event.fork w.fork_rv], .ret 0⟩) ∧
    (0 < w.fork_rv →
      Shell.execute_args sh w save c args =
        ⟨[Event.fork w.fork_rv, Event.wait], .ret 1⟩) := by
  have hneg : w.fork_rv < 0 →
      Shell.execute_args sh w save c args = ⟨[Event.fork w.fork_rv], .ret 0⟩ := by
    intro h
    rw [execute_args_ordinary sh w save c args hc]
    unfold Shell.run
    rw [if_neg (by omega), if_neg (by omega)]
    rfl
  have hpos : 0 < w.fork_rv →
      Shell.execute_args sh w save c args =
        ⟨[Event.fork w.fork_rv, Event.wait], .ret 1⟩ := by
    intro h
    rw [execute_args_ordinary sh w save c args hc]
    unfold Shell.run
    rw [if_neg (by omega), if_pos (by omega)]
    rfl
  refine ⟨⟨fun hout => ?_, fun h => by rw [hneg h]⟩, hneg, hpos⟩
  rcases lt_trichotomy w.fork_rv 0 with h | h | h
  · exact h
  · exfalso
    rw [execute_args_ordinary sh w save c args hc, run_child sh w save c args h] at hout
    cases hf : (candidates (search_text sh save) c).find? w.execv_ok <;>
      rw [hf] at hout <;> simp [child_result] at hout
  · rw [hpos h] at hout
    simp at hout

/-- C5 in a parent whose `fork` returned 1234, for a command found nowhere. -/
theorem C5_parent_waits_once :
    ordinary "nosuch".toList ∧
    Shell.execute_args ⟨some "/opt/bin".toList⟩ (world 1234 [] none) [] "nosuch".toList
        (args_of ["nosuch".toList]) =
      ⟨[Event.fork 1234, Event.wait], .ret 1⟩ :=
  ⟨by decide,
   (C5_failure_iff_fork_fails ⟨some "/opt/bin".toList⟩ (world 1234 [] none) []
      "nosuch".toList (args_of ["nosuch".toList]) (by decide)).2.2 (by decide)⟩

/-- C7: when `getcwd` fails, `pwd` and `cwd` print
`ERROR! Unable to fetch present working directory!` and `Shell::print_cwd`
returns 0, yet `execute(command, args)` returns 1: the result of `print_cwd` is
dropped. -/
theorem C7_pwd_returns_one_on_failed_lookup :
    (∀ sh pid rv ok save args,
      Shell.execute_args sh ⟨pid, rv, ok, none⟩ save "pwd".toList args =
        ⟨[Event.stdout "ERROR! Unable to fetch present working directory!\n".toList],
          .ret 1⟩) ∧
    (∀ sh pid rv ok save args,
      Shell.execute_args sh ⟨pid, rv, ok, none⟩ save "cwd".toList args =
        ⟨[Event.stdout "ERROR! Unable to fetch present working directory!\n".toList],
          .ret 1⟩) ∧
    (∀ pid rv ok, (Shell.print_cwd ⟨pid, rv, ok, none⟩).2 = 0) ∧
    (∀ sh pid rv ok, Shell.execute sh ⟨pid, rv, ok, none⟩ "pwd /tmp\n".toList =
      ⟨[Event.stdout "ERROR! Unable to fetch present working directory!\n".toList],
        .ret 1⟩) :=
  ⟨fun _ _ _ _ _ _ => rfl, fun _ _ _ _ _ _ => rfl, fun _ _ _ => rfl, fun _ _ _ _ => rfl⟩

end RSS
